import Mathlib

/-!
Verification of the collision-detection and placement core of the jagua-rs
2D irregular packing library, against its natural-language specification.

The Rust sources are shallowly embedded: machine floats (`f64`) become `ℚ`,
fallible code returns `Option`, and `&mut self` methods become functions
returning the updated value.  Geometric primitives whose implementation
lives outside the provided sources (`Circle`, `AARectangle`,
`Transformation`, euclidean distance) are modelled from the specification;
square roots, which do not stay rational, are abstracted as function
parameters that the theorems quantify over.
-/

namespace Geo

/-- A point, a pair of (64-bit float) coordinates, modelled over `ℚ`. -/
structure Point where
  x : ℚ
  y : ℚ
deriving DecidableEq

/-- Position of a point relative to a closed region: inside it or outside it. -/
inductive GeoPosition where
  | Interior
  | Exterior
deriving DecidableEq

/-- A circle: center point and radius. -/
structure Circle where
  center : Point
  radius : ℚ
deriving DecidableEq

/-- Modelled from the spec: `Circle::distance_from_border` (the file
`primitives/circle.rs` is not among the provided sources).  Returns whether
the point lies inside the circle together with its distance to the circle's
border.  The euclidean distance between points is abstracted as the
parameter `dist` because a square root does not stay rational. -/
def Circle.distance_from_border (dist : Point → Point → ℚ) (c : Circle) (p : Point) :
    GeoPosition × ℚ :=
  let d := dist c.center p
  if d < c.radius then (GeoPosition.Interior, c.radius - d) else (GeoPosition.Exterior, d - c.radius)

/-- An axis-aligned rectangle, by its two corner coordinates. -/
structure AARectangle where
  x_min : ℚ
  y_min : ℚ
  x_max : ℚ
  y_max : ℚ
deriving DecidableEq

/-- Modelled from the spec: centroid of an axis-aligned rectangle
(`primitives/aa_rectangle.rs` is not among the provided sources). -/
def AARectangle.centroid (r : AARectangle) : Point :=
  ⟨(r.x_min + r.x_max) / 2, (r.y_min + r.y_max) / 2⟩

/-- Modelled from the spec: the four-way quadrant split of an axis-aligned
rectangle at its centroid (`primitives/aa_rectangle.rs` is not among the
provided sources). -/
def AARectangle.quadrants (r : AARectangle) : List AARectangle :=
  let c := r.centroid
  [⟨r.x_min, r.y_min, c.x, c.y⟩, ⟨c.x, r.y_min, r.x_max, c.y⟩,
   ⟨r.x_min, c.y, c.x, r.y_max⟩, ⟨c.x, c.y, r.x_max, r.y_max⟩]

/-- Allowed rotation of an item (`geometry/geo_enums.rs` is not among the
provided sources; the variants are fixed by the spec and by
`Parser::parse_item`): no rotation, free rotation, or a discrete list of
angles in radians. -/
inductive AllowedRotation where
  | None
  | Continuous
  | Discrete (angles : List ℚ)
deriving DecidableEq

/-- Modelled from the spec: a proper rigid transformation, "affine 3×3
(rotation + translation; no scale/shear)" (`geometry/transformation.rs` is
not among the provided sources).  The linear part is the rotation matrix
`[[c, -s], [s, c]]`; the rotation angle is represented by the pair of its
cosine and sine so that composition stays rational. -/
structure Transformation where
  c : ℚ
  s : ℚ
  tx : ℚ
  ty : ℚ
deriving DecidableEq

/-- Modelled from the spec: a decomposed transformation, "(rotation angle,
translation vector)"; the angle is again represented by its cosine/sine
pair. -/
structure DTransformation where
  c : ℚ
  s : ℚ
  tx : ℚ
  ty : ℚ
deriving DecidableEq

/-- The identity transformation, `Transformation::empty()`. -/
def Transformation.empty : Transformation := ⟨1, 0, 0, 0⟩

/-- Modelled from the spec: `Transformation::transform`, matrix composition.
The chains written in `io/parser.rs` realize the spec's products
`item.pretransform · T_int · bin.pretransform⁻¹`, which fixes `a.transform b`
as the matrix product `a · b` (apply `b` first, then `a`). -/
def Transformation.transform (a b : Transformation) : Transformation :=
  ⟨a.c * b.c - a.s * b.s, a.s * b.c + a.c * b.s,
   a.c * b.tx - a.s * b.ty + a.tx, a.s * b.tx + a.c * b.ty + a.ty⟩

/-- Modelled from the spec: inversion, "defined for pure rotate+translate":
the inverse of `x ↦ R x + v` is `x ↦ Rᵀ x - Rᵀ v`. -/
def Transformation.inverse (t : Transformation) : Transformation :=
  ⟨t.c, -t.s, -(t.c * t.tx + t.s * t.ty), -(-t.s * t.tx + t.c * t.ty)⟩

/-- Modelled from the spec: recomposing a decomposed transformation into its
matrix form. -/
def DTransformation.compose (d : DTransformation) : Transformation :=
  ⟨d.c, d.s, d.tx, d.ty⟩

/-- Modelled from the spec: decomposing a rigid transformation, reading the
rotation off the first matrix column and keeping the translation. -/
def Transformation.decompose (t : Transformation) : DTransformation :=
  ⟨t.c, t.s, t.tx, t.ty⟩

/-- Modelled from the spec: `Transformation::transform_from_decomposed`
recomposes the decomposed transformation and composes with it. -/
def Transformation.transform_from_decomposed (a : Transformation) (d : DTransformation) :
    Transformation :=
  a.transform d.compose

theorem Transformation.transform_assoc (a b c : Transformation) :
    (a.transform b).transform c = a.transform (b.transform c) := by
  simp only [Transformation.transform, Transformation.mk.injEq]
  refine ⟨by ring, by ring, by ring, by ring⟩

theorem Transformation.empty_transform (a : Transformation) :
    Transformation.empty.transform a = a := by
  simp [Transformation.transform, Transformation.empty]

theorem Transformation.transform_empty (a : Transformation) :
    a.transform Transformation.empty = a := by
  simp [Transformation.transform, Transformation.empty]

/-- A rotation-plus-translation with unit-norm rotation column cancels with
its inverse on the left. -/
theorem Transformation.inverse_transform_cancel (t : Transformation)
    (h : t.c ^ 2 + t.s ^ 2 = 1) : t.inverse.transform t = Transformation.empty := by
  simp only [Transformation.transform, Transformation.inverse, Transformation.empty,
    Transformation.mk.injEq]
  refine ⟨by linear_combination h, by ring, by ring, by ring⟩

/-- A rotation-plus-translation with unit-norm rotation column cancels with
its inverse on the right. -/
theorem Transformation.transform_inverse_cancel (t : Transformation)
    (h : t.c ^ 2 + t.s ^ 2 = 1) : t.transform t.inverse = Transformation.empty := by
  simp only [Transformation.transform, Transformation.inverse, Transformation.empty,
    Transformation.mk.injEq]
  refine ⟨by linear_combination h, by ring,
    by linear_combination -t.tx * h, by linear_combination -t.ty * h⟩

end Geo

namespace Jaguars

/-- A hazard entity: the feature of the problem a hazard originates from
(`collision_detection/hazard.rs` is not among the provided sources; the
variants are fixed by the spec). -/
inductive HazardEntity where
  | BinExterior
  | BinHole (id : ℕ)
  | PlacedItem (id : ℕ)
  | InferiorQualityZone (quality : ℕ) (id : ℕ)
deriving DecidableEq

/-- Modelled from the spec: which side of its shape a hazard entity forbids
("`BinExterior` (everything outside the bin is forbidden)"; holes, placed
items and quality zones forbid their interior). -/
def HazardEntity.position : HazardEntity → Geo.GeoPosition
  | HazardEntity.BinExterior => Geo.GeoPosition.Exterior
  | HazardEntity.BinHole _ => Geo.GeoPosition.Interior
  | HazardEntity.PlacedItem _ => Geo.GeoPosition.Interior
  | HazardEntity.InferiorQualityZone _ _ => Geo.GeoPosition.Interior

/-- Modelled from the spec: whether a hazard entity applies to every item
("Universal hazard: forbids all items regardless of quality; quality-zone
hazards are non-universal"). -/
def HazardEntity.universal : HazardEntity → Bool
  | HazardEntity.InferiorQualityZone _ _ => false
  | _ => true

/-- The `HazardFilter` trait reduced to its single method: a predicate on
hazard entities. -/
def HazardFilter : Type := HazardEntity → Bool

/-- A filter combining several other hazard filters
(`hazard_filters/combo_haz_filter.rs`). -/
structure CombinedHazardFilter where
  filters : List HazardFilter

/-- A hazard entity is relevant for the combined filter when every component
filter finds it relevant (`CombinedHazardFilter::is_relevant`). -/
def CombinedHazardFilter.is_relevant (cf : CombinedHazardFilter) (entity : HazardEntity) : Bool :=
  cf.filters.all (fun f => f entity)

/-- A fresh combined filter has no component filters
(`CombinedHazardFilter::new`). -/
def CombinedHazardFilter.new : CombinedHazardFilter :=
  { filters := [] }

/-- Adding a component filter (`CombinedHazardFilter::add`). -/
def CombinedHazardFilter.add (cf : CombinedHazardFilter) (f : HazardFilter) :
    CombinedHazardFilter :=
  { filters := cf.filters ++ [f] }

/-- The quality-zone hazard filter carried by items with a base quality
(`hazard_filters/qz_haz_filter.rs` is not among the provided sources; its
single field is visible in `entities/item.rs`). -/
structure QZHazardFilter where
  cutoff_quality : ℕ
deriving DecidableEq

/-- An item of the catalog (`entities/item.rs`).  The polygon type is a type
parameter: the shape is an opaque shared handle as far as `clone_with_id`
is concerned. -/
structure Item (Poly : Type) where
  id : ℕ
  shape : Poly
  allowed_rotation : Geo.AllowedRotation
  base_quality : Option ℕ
  value : ℕ
  centering_transform : Geo.Transformation
  hazard_filter : Option QZHazardFilter

/-- An exact copy of the item under a new id (`Item::clone_with_id`). -/
def Item.clone_with_id {Poly : Type} (it : Item Poly) (id : ℕ) : Item Poly :=
  { it with id := id }

end Jaguars

namespace ParserIo

/-- Conversion of the optional `allowed_orientations` list of a JSON item
into an `AllowedRotation`, as in `Parser::parse_item` (io/parser.rs lines
187-196).  Angles are given in degrees; the degree-to-radian conversion
`f64::to_radians` is abstracted as the parameter `toRadians`. -/
def parse_allowed_orientations (toRadians : ℚ → ℚ) (allowed_orientations : Option (List ℚ)) :
    Geo.AllowedRotation :=
  match allowed_orientations with
  | some a_o =>
    if a_o.isEmpty || (a_o.length = 1 && a_o.getD 0 0 = 0) then
      Geo.AllowedRotation.None
    else
      Geo.AllowedRotation.Discrete (a_o.map toRadians)
  | none => Geo.AllowedRotation.Continuous

/-- Conversion of an internal placement transformation to the absolute
transformation reported to users (`internal_to_absolute_transform`,
io/parser.rs lines 588-601). -/
def internal_to_absolute_transform (placed_item_transf : Geo.DTransformation)
    (item_pretransf bin_pretransf : Geo.Transformation) : Geo.Transformation :=
  ((Geo.Transformation.empty.transform item_pretransf).transform_from_decomposed
      placed_item_transf).transform bin_pretransf.inverse

/-- Conversion of an absolute transformation to the internal placement
transformation (`absolute_to_internal_transform`, io/parser.rs lines
603-616). -/
def absolute_to_internal_transform (abs_transf : Geo.DTransformation)
    (item_pretransf bin_pretransf : Geo.Transformation) : Geo.Transformation :=
  ((Geo.Transformation.empty.transform item_pretransf.inverse).transform_from_decomposed
      abs_transf).transform bin_pretransf

end ParserIo

/-- Claim C9: `CombinedHazardFilter::is_relevant` returns true exactly when
every component filter returns true, and the empty combination produced by
`CombinedHazardFilter::new` reports every hazard entity as relevant. -/
theorem combined_hazard_filter_is_relevant_iff_all
    (cf : Jaguars.CombinedHazardFilter) (e : Jaguars.HazardEntity) :
    (cf.is_relevant e = true ↔ ∀ f ∈ cf.filters, f e = true) ∧
      Jaguars.CombinedHazardFilter.new.is_relevant e = true := by
  constructor
  · simp [Jaguars.CombinedHazardFilter.is_relevant, List.all_eq_true]
  · simp [Jaguars.CombinedHazardFilter.is_relevant, Jaguars.CombinedHazardFilter.new]

/-- Witness for C9: a two-component combination at a concrete entity. -/
theorem combined_hazard_filter_is_relevant_iff_all_witness :
    (Jaguars.CombinedHazardFilter.mk
        [fun e => e.universal, fun _ => true]).is_relevant Jaguars.HazardEntity.BinExterior
      = true := by
  have h := combined_hazard_filter_is_relevant_iff_all
    (Jaguars.CombinedHazardFilter.mk [fun e => e.universal, fun _ => true])
    Jaguars.HazardEntity.BinExterior
  exact h.1.mpr (by
    intro f hf
    simp only [List.mem_cons, List.mem_singleton] at hf
    rcases hf with rfl | rfl | hf
    · rfl
    · rfl
    · simp at hf)

/-- Claim C10: `Item::clone_with_id` yields an item with the given id and
with the shape, allowed rotation, base quality, value, centering transform
and hazard filter of the original (the original is a value, so it is
unchanged by construction). -/
theorem item_clone_with_id_fields {Poly : Type} (it : Jaguars.Item Poly) (id : ℕ) :
    (it.clone_with_id id).id = id ∧
      (it.clone_with_id id).shape = it.shape ∧
      (it.clone_with_id id).allowed_rotation = it.allowed_rotation ∧
      (it.clone_with_id id).base_quality = it.base_quality ∧
      (it.clone_with_id id).value = it.value ∧
      (it.clone_with_id id).centering_transform = it.centering_transform ∧
      (it.clone_with_id id).hazard_filter = it.hazard_filter := by
  simp [Jaguars.Item.clone_with_id]

/-- Witness for C10: cloning a concrete item with a fresh id. -/
theorem item_clone_with_id_fields_witness :
    ((Jaguars.Item.mk 3 (17 : ℕ) Geo.AllowedRotation.Continuous (some 2) 5
        Geo.Transformation.empty none).clone_with_id 8).id = 8 ∧
      ((Jaguars.Item.mk 3 (17 : ℕ) Geo.AllowedRotation.Continuous (some 2) 5
        Geo.Transformation.empty none).clone_with_id 8).shape = 17 := by
  have h := item_clone_with_id_fields
    (Jaguars.Item.mk 3 (17 : ℕ) Geo.AllowedRotation.Continuous (some 2) 5
      Geo.Transformation.empty none) 8
  exact ⟨h.1, h.2.1⟩

/-- Claim C7: parsing `allowed_orientations` maps an omitted field to
`Continuous`, an empty list or the one-element list containing 0 to `None`,
and any other list to `Discrete` with each angle converted from degrees to
radians in order. -/
theorem parse_allowed_orientations_cases (toRadians : ℚ → ℚ) (l : List ℚ) :
    ParserIo.parse_allowed_orientations toRadians none = Geo.AllowedRotation.Continuous ∧
      ParserIo.parse_allowed_orientations toRadians (some []) = Geo.AllowedRotation.None ∧
      ParserIo.parse_allowed_orientations toRadians (some [0]) = Geo.AllowedRotation.None ∧
      (l ≠ [] → l ≠ [0] →
        ParserIo.parse_allowed_orientations toRadians (some l) =
          Geo.AllowedRotation.Discrete (l.map toRadians)) := by
  refine ⟨rfl, rfl, by simp [ParserIo.parse_allowed_orientations], ?_⟩
  intro hne hnz
  match l with
  | [] => exact absurd rfl hne
  | [x] =>
    have hx : x ≠ 0 := by
      intro h
      exact hnz (by simp [h])
    simp [ParserIo.parse_allowed_orientations, hx]
  | x :: y :: t =>
    simp [ParserIo.parse_allowed_orientations]

/-- Witness for C7: a concrete two-angle list lands in the `Discrete` case. -/
theorem parse_allowed_orientations_cases_witness :
    ([90, 180] : List ℚ) ≠ [] ∧ ([90, 180] : List ℚ) ≠ [0] ∧
      ParserIo.parse_allowed_orientations (fun x => x / 57) (some [90, 180]) =
        Geo.AllowedRotation.Discrete [90 / 57, 180 / 57] := by
  refine ⟨by decide, by decide, ?_⟩
  have h := (parse_allowed_orientations_cases (fun x => x / 57) [90, 180]).2.2.2
    (by decide) (by decide)
  simpa using h

namespace HPG

/-!
Embedding of `collision_detection/hpg/hpg_cell.rs` (jagua-rs crate).  The
crate's `HazardEntity` enum coincides with the one of the jaguars snapshot,
so `Jaguars.HazardEntity` is reused here.
-/

/-- Number of quality levels; fixed by the `[f64; 10]` return type of
`HPGCell::qz_haz_prox`. -/
def N_QUALITIES : ℕ := 10

/-- All possible results of an update on a cell in the hazard proximity
grid (`HPGCellUpdate`). -/
inductive HPGCellUpdate where
  | Affected
  | NotAffected
  | NeighborsNotAffected
deriving DecidableEq

/-- Modelled from the spec: of a hazard's shape only the surrogate poles
are consulted by the HPG cell (`shape.surrogate().poles`); the polygon
itself lives in sources that are not provided. -/
structure HazShape where
  poles : List Geo.Circle
deriving DecidableEq

/-- A hazard: an activity flag, a shape, and the entity it originates from
(`collision_detection/hazard.rs` is not among the provided sources; the
fields used by `hpg_cell.rs` are `active`, `shape` and `entity`). -/
structure Hazard where
  entity : Jaguars.HazardEntity
  active : Bool
  shape : HazShape
deriving DecidableEq

/-- A cell in the hazard proximity grid (`HPGCell`).  The fixed-size array
`qz_prox: [f64; N_QUALITIES]` is modelled as a total function. -/
structure HPGCell where
  bbox : Geo.AARectangle
  centroid : Geo.Point
  radius : ℚ
  uni_prox : ℚ × Jaguars.HazardEntity
  static_uni_prox : ℚ × Jaguars.HazardEntity
  qz_prox : ℕ → ℚ

/-- Distance from the cell's centroid to the border of the closest
surrogate pole, zero for poles containing the centroid
(`distance_to_surrogate_poles_border`).  The source takes the minimum with
`.min_by(...).unwrap()`, which requires a nonempty pole list; the empty
case is mapped to 0 and excluded by hypothesis in the theorems. -/
def distance_to_surrogate_poles_border (dist : Geo.Point → Geo.Point → ℚ)
    (hp_cell : HPGCell) (poles : List Geo.Circle) : ℚ :=
  let proxs := poles.map (fun p =>
    match Geo.Circle.distance_from_border dist p hp_cell.centroid with
    | (Geo.GeoPosition.Interior, _) => 0
    | (Geo.GeoPosition.Exterior, d) => |d|)
  match proxs with
  | [] => 0
  | x :: xs => xs.foldl min x

/-- Registering a newly introduced universal hazard on a cell
(`HPGCell::register_hazard`, hpg_cell.rs lines 122-153).  The source
panics on exterior-forbidden dynamic hazards; that branch is mapped to a
no-op and excluded by hypothesis in the theorems. -/
def HPGCell.register_hazard (dist : Geo.Point → Geo.Point → ℚ) (cell : HPGCell)
    (to_register : Hazard) : HPGCell × HPGCellUpdate :=
  let current_prox := cell.uni_prox.1
  match to_register.entity.position with
  | Geo.GeoPosition.Interior =>
    let haz_prox := distance_to_surrogate_poles_border dist cell to_register.shape.poles
    if haz_prox < current_prox then
      ({ cell with uni_prox := (haz_prox, to_register.entity) }, HPGCellUpdate.Affected)
    else if haz_prox > current_prox + 2 * cell.radius then
      (cell, HPGCellUpdate.NeighborsNotAffected)
    else
      (cell, HPGCellUpdate.NotAffected)
  | Geo.GeoPosition.Exterior => (cell, HPGCellUpdate.NotAffected)

/-- Distance of the closest hazard relevant at a given quality level
(`HPGCell::hazard_proximity`, hpg_cell.rs lines 242-254). -/
def HPGCell.hazard_proximity (cell : HPGCell) (quality_level : Option ℕ) : ℚ :=
  let relevant_qualities := match quality_level with
    | some q => List.range q
    | none => List.range N_QUALITIES
  relevant_qualities.foldl (fun haz_prox quality => min haz_prox (cell.qz_prox quality))
    cell.uni_prox.1

/-- The part of an item's shape consulted by the HPG: its pole of
inaccessibility (the jagua-rs `entities/item.rs` is not among the provided
sources; `could_accommodate_item` reads `item.shape.poi`). -/
structure ItemShape where
  poi : Geo.Circle
deriving DecidableEq

/-- An item as seen by the HPG cell: a shape with a PoI and an optional
base quality. -/
structure Item where
  shape : ItemShape
  base_quality : Option ℕ
deriving DecidableEq

/-- Pre-check whether an item could possibly be placed with its centroid in
this cell (`HPGCell::could_accommodate_item`, hpg_cell.rs lines 229-240). -/
def HPGCell.could_accommodate_item (cell : HPGCell) (item : Item) : Bool :=
  let poi_d := item.shape.poi.radius
  if cell.radius > poi_d then
    true
  else
    decide (poi_d < cell.hazard_proximity item.base_quality + cell.radius)

/-- The per-pole proximities named by the claim: 0 for a pole containing
the cell centroid, the distance to the pole border otherwise. -/
def pole_prox_list (dist : Geo.Point → Geo.Point → ℚ) (cell : HPGCell)
    (poles : List Geo.Circle) : List ℚ :=
  poles.map (fun p =>
    if (Geo.Circle.distance_from_border dist p cell.centroid).1 = Geo.GeoPosition.Interior then 0
    else |(Geo.Circle.distance_from_border dist p cell.centroid).2|)

end HPG

/-- Folding `min` over a list starting from its head yields an element of
the list that bounds every element from below. -/
theorem foldl_min_mem_le : ∀ (xs : List ℚ) (x : ℚ),
    xs.foldl min x ∈ x :: xs ∧ ∀ y ∈ x :: xs, xs.foldl min x ≤ y := by
  intro xs
  induction xs with
  | nil => intro x; simp
  | cons a t ih =>
    intro x
    have h := ih (min x a)
    constructor
    · rcases List.mem_cons.1 h.1 with hmem | hmem
      · rcases le_total x a with hxa | hax
        · rw [List.foldl_cons, hmem, min_eq_left hxa]; exact List.mem_cons_self _ _
        · rw [List.foldl_cons, hmem, min_eq_right hax]
          exact List.mem_cons_of_mem _ (List.mem_cons_self _ _)
      · exact List.mem_cons_of_mem _ (List.mem_cons_of_mem _ (by simpa using hmem))
    · intro y hy
      have hhead : t.foldl min (min x a) ≤ min x a := h.2 _ (List.mem_cons_self _ _)
      rcases List.mem_cons.1 hy with rfl | hy'
      · exact le_trans hhead (min_le_left _ _)
      · rcases List.mem_cons.1 hy' with rfl | hy''
        · exact le_trans hhead (min_le_right _ _)
        · exact h.2 _ (List.mem_cons_of_mem _ hy'')

/-- Folding `fun a q => min a (f q)` over a list of indices computes the
greatest lower bound of the initial value and the selected entries, and
attains it. -/
theorem foldl_min_glb (f : ℕ → ℚ) : ∀ (l : List ℕ) (init : ℚ),
    (l.foldl (fun a q => min a (f q)) init ≤ init ∧
      ∀ q ∈ l, l.foldl (fun a q => min a (f q)) init ≤ f q) ∧
      (l.foldl (fun a q => min a (f q)) init = init ∨
        ∃ q ∈ l, l.foldl (fun a q => min a (f q)) init = f q) := by
  intro l
  induction l with
  | nil => intro init; simp
  | cons a t ih =>
    intro init
    have h := ih (min init (f a))
    refine ⟨⟨le_trans h.1.1 (min_le_left _ _), ?_⟩, ?_⟩
    · intro q hq
      rcases List.mem_cons.1 hq with rfl | hq'
      · exact le_trans h.1.1 (min_le_right _ _)
      · exact h.1.2 _ hq'
    · rcases h.2 with heq | ⟨q, hq, heq⟩
      · rcases le_total init (f a) with hxa | hax
        · exact Or.inl (by rw [List.foldl_cons, heq, min_eq_left hxa])
        · exact Or.inr ⟨a, List.mem_cons_self _ _, by rw [List.foldl_cons, heq, min_eq_right hax]⟩
      · exact Or.inr ⟨q, List.mem_cons_of_mem _ hq, heq⟩

/-- The mapped proximity list inside `distance_to_surrogate_poles_border`
coincides with the claim's `pole_prox_list`. -/
theorem pole_prox_list_eq (dist : Geo.Point → Geo.Point → ℚ) (cell : HPG.HPGCell)
    (poles : List Geo.Circle) :
    poles.map (fun p =>
        match Geo.Circle.distance_from_border dist p cell.centroid with
        | (Geo.GeoPosition.Interior, _) => (0 : ℚ)
        | (Geo.GeoPosition.Exterior, d) => |d|) =
      HPG.pole_prox_list dist cell poles := by
  unfold HPG.pole_prox_list
  refine List.map_congr_left ?_
  intro p _
  rcases hd : Geo.Circle.distance_from_border dist p cell.centroid with ⟨pos, d⟩
  cases pos <;> simp

/-- The value computed by `distance_to_surrogate_poles_border` is the
minimum of the claim's per-pole proximities: it occurs in the list and
bounds every entry from below. -/
theorem distance_to_surrogate_poles_border_min (dist : Geo.Point → Geo.Point → ℚ)
    (cell : HPG.HPGCell) (poles : List Geo.Circle) (hnp : poles ≠ []) :
    HPG.distance_to_surrogate_poles_border dist cell poles ∈
        HPG.pole_prox_list dist cell poles ∧
      ∀ d ∈ HPG.pole_prox_list dist cell poles,
        HPG.distance_to_surrogate_poles_border dist cell poles ≤ d := by
  unfold HPG.distance_to_surrogate_poles_border
  rw [pole_prox_list_eq]
  rcases hl : HPG.pole_prox_list dist cell poles with _ | ⟨x, xs⟩
  · exact absurd (List.map_eq_nil_iff.1 (by rw [pole_prox_list_eq, hl])) hnp
  · simpa using foldl_min_mem_le xs x

/-- Claim C1: for an active, universal, interior-forbidden hazard,
`register_hazard` computes `haz_prox` as the minimum over the hazard's
surrogate poles of (0 if the cell centroid is inside the pole, else the
distance to the pole border); if `haz_prox < uni_prox.distance` it updates
`uni_prox` and returns `Affected`; else if
`haz_prox > uni_prox.distance + 2 × cell.radius` it returns
`NeighborsNotAffected`; else it returns `NotAffected`, the cell being
unchanged in both non-`Affected` cases. -/
theorem register_hazard_spec (dist : Geo.Point → Geo.Point → ℚ) (cell : HPG.HPGCell)
    (h : HPG.Hazard) (_hact : h.active = true) (_huni : h.entity.universal = true)
    (hpos : h.entity.position = Geo.GeoPosition.Interior)
    (hnp : h.shape.poles ≠ []) :
    ∃ haz_prox : ℚ,
      (haz_prox ∈ HPG.pole_prox_list dist cell h.shape.poles ∧
        ∀ d ∈ HPG.pole_prox_list dist cell h.shape.poles, haz_prox ≤ d) ∧
      (haz_prox < cell.uni_prox.1 →
        cell.register_hazard dist h =
          ({ cell with uni_prox := (haz_prox, h.entity) }, HPG.HPGCellUpdate.Affected)) ∧
      (¬ haz_prox < cell.uni_prox.1 → haz_prox > cell.uni_prox.1 + 2 * cell.radius →
        cell.register_hazard dist h = (cell, HPG.HPGCellUpdate.NeighborsNotAffected)) ∧
      (¬ haz_prox < cell.uni_prox.1 → ¬ haz_prox > cell.uni_prox.1 + 2 * cell.radius →
        cell.register_hazard dist h = (cell, HPG.HPGCellUpdate.NotAffected)) := by
  refine ⟨HPG.distance_to_surrogate_poles_border dist cell h.shape.poles,
    distance_to_surrogate_poles_border_min dist cell h.shape.poles hnp, ?_, ?_, ?_⟩
  · intro hlt
    simp [HPG.HPGCell.register_hazard, hpos, hlt]
  · intro hnlt hgt
    simp [HPG.HPGCell.register_hazard, hpos, hnlt, hgt]
  · intro hnlt hngt
    simp [HPG.HPGCell.register_hazard, hpos, hnlt, hngt]

/-- Concrete taxicab distance used by the C1 witness. -/
def c1_dist : Geo.Point → Geo.Point → ℚ := fun a b => |a.x - b.x| + |a.y - b.y|

/-- Concrete cell used by the C1 witness. -/
def c1_cell : HPG.HPGCell :=
  { bbox := ⟨0, 0, 2, 2⟩, centroid := ⟨1, 1⟩, radius := 1,
    uni_prox := (10, Jaguars.HazardEntity.BinExterior),
    static_uni_prox := (10, Jaguars.HazardEntity.BinExterior),
    qz_prox := fun _ => 100 }

/-- Concrete hazard used by the C1 witness. -/
def c1_haz : HPG.Hazard :=
  { entity := Jaguars.HazardEntity.PlacedItem 0, active := true,
    shape := ⟨[⟨⟨4, 1⟩, 1⟩]⟩ }

/-- Witness for C1: a concrete placed-item hazard whose single pole lies at
proximity 2 of the cell, beating the current closest hazard at distance 10,
so the registration affects the cell. -/
theorem register_hazard_spec_witness :
    c1_haz.active = true ∧ c1_haz.entity.universal = true ∧
      c1_haz.entity.position = Geo.GeoPosition.Interior ∧ c1_haz.shape.poles ≠ [] ∧
      c1_cell.register_hazard c1_dist c1_haz =
        ({ c1_cell with uni_prox := (2, Jaguars.HazardEntity.PlacedItem 0) },
          HPG.HPGCellUpdate.Affected) := by
  refine ⟨rfl, rfl, rfl, by simp [c1_haz], ?_⟩
  obtain ⟨hp, ⟨hmem, _⟩, haff, _, _⟩ :=
    register_hazard_spec c1_dist c1_cell c1_haz rfl rfl rfl (by simp [c1_haz])
  have hplist : HPG.pole_prox_list c1_dist c1_cell c1_haz.shape.poles = [2] := by
    norm_num [HPG.pole_prox_list, c1_dist, c1_cell, c1_haz, Geo.Circle.distance_from_border]
    decide
  rw [hplist] at hmem
  have hp2 : hp = 2 := by simpa using hmem
  subst hp2
  exact haff (by norm_num [c1_cell])

/-- The fold inside `hazard_proximity` computes the greatest lower bound of
`uni_prox.distance` and the consulted quality-zone proximities, and attains
it. -/
theorem hazard_proximity_glb (cell : HPG.HPGCell) (ql : Option ℕ) :
    (cell.hazard_proximity ql ≤ cell.uni_prox.1 ∧
      ∀ q < (match ql with | some n => n | none => HPG.N_QUALITIES),
        cell.hazard_proximity ql ≤ cell.qz_prox q) ∧
      (cell.hazard_proximity ql = cell.uni_prox.1 ∨
        ∃ q, q < (match ql with | some n => n | none => HPG.N_QUALITIES) ∧
          cell.hazard_proximity ql = cell.qz_prox q) := by
  cases ql with
  | none =>
    have h := foldl_min_glb cell.qz_prox (List.range HPG.N_QUALITIES) cell.uni_prox.1
    refine ⟨⟨h.1.1, fun q hq => h.1.2 q (List.mem_range.2 hq)⟩, ?_⟩
    rcases h.2 with heq | ⟨q, hq, heq⟩
    · exact Or.inl heq
    · exact Or.inr ⟨q, List.mem_range.1 hq, heq⟩
  | some n =>
    have h := foldl_min_glb cell.qz_prox (List.range n) cell.uni_prox.1
    refine ⟨⟨h.1.1, fun q hq => h.1.2 q (List.mem_range.2 hq)⟩, ?_⟩
    rcases h.2 with heq | ⟨q, hq, heq⟩
    · exact Or.inl heq
    · exact Or.inr ⟨q, List.mem_range.1 hq, heq⟩

/-- Claim C2: `could_accommodate_item` returns true whenever
`cell.radius > item.poi.radius`, and otherwise returns
`item.poi.radius < haz_prox + cell.radius` where `haz_prox` is the minimum
of `uni_prox.distance` and the quality-zone proximities below the item's
base quality (below `N_QUALITIES` when the base quality is absent). -/
theorem could_accommodate_item_spec (cell : HPG.HPGCell) (item : HPG.Item) :
    (cell.radius > item.shape.poi.radius → cell.could_accommodate_item item = true) ∧
      (¬ cell.radius > item.shape.poi.radius →
        (cell.could_accommodate_item item = true ↔
          item.shape.poi.radius < cell.hazard_proximity item.base_quality + cell.radius)) ∧
      (cell.hazard_proximity item.base_quality ≤ cell.uni_prox.1 ∧
        ∀ q < (match item.base_quality with | some n => n | none => HPG.N_QUALITIES),
          cell.hazard_proximity item.base_quality ≤ cell.qz_prox q) ∧
      (cell.hazard_proximity item.base_quality = cell.uni_prox.1 ∨
        ∃ q, q < (match item.base_quality with | some n => n | none => HPG.N_QUALITIES) ∧
          cell.hazard_proximity item.base_quality = cell.qz_prox q) := by
  refine ⟨?_, ?_, (hazard_proximity_glb cell item.base_quality).1,
    (hazard_proximity_glb cell item.base_quality).2⟩
  · intro hgt
    simp [HPG.HPGCell.could_accommodate_item, hgt]
  · intro hngt
    simp [HPG.HPGCell.could_accommodate_item, hngt]

/-- Concrete cell used by the C2 witness. -/
def c2_cell : HPG.HPGCell :=
  { bbox := ⟨0, 0, 2, 2⟩, centroid := ⟨1, 1⟩, radius := 1,
    uni_prox := (3, Jaguars.HazardEntity.BinExterior),
    static_uni_prox := (3, Jaguars.HazardEntity.BinExterior),
    qz_prox := fun q => (q : ℚ) + 1 }

/-- Concrete item used by the C2 witness. -/
def c2_item : HPG.Item := ⟨⟨⟨⟨5, 5⟩, 3 / 2⟩⟩, some 2⟩

/-- Witness for C2: a concrete cell whose radius does not exceed the item's
PoI radius, where the quality-zone minimum decides the outcome. -/
theorem could_accommodate_item_spec_witness :
    ¬ c2_cell.radius > c2_item.shape.poi.radius ∧
      c2_cell.could_accommodate_item c2_item = true := by
  have hngt : ¬ c2_cell.radius > c2_item.shape.poi.radius := by
    norm_num [c2_cell, c2_item]
  refine ⟨hngt, ?_⟩
  refine ((could_accommodate_item_spec c2_cell c2_item).2.1 hngt).mpr ?_
  norm_num [HPG.HPGCell.hazard_proximity, c2_cell, c2_item, List.range_succ]

/-- Recomposing a decomposed transformation is exact in this model. -/
theorem Geo.DTransformation.compose_decompose (t : Geo.Transformation) :
    t.decompose.compose = t := rfl

/-- Claim C8: the transformation round trip.  With pure rotation-plus-
translation pretransforms, `absolute_to_internal_transform` applied to the
decomposition of `internal_to_absolute_transform T` yields `T` back
(exactly in this rational model, hence within 1e-9 on each element), and
`internal_to_absolute_transform` realizes the product
`item.pretransform · T_int · bin.pretransform⁻¹`. -/
theorem transform_round_trip (T : Geo.DTransformation) (ip bp : Geo.Transformation)
    (hip : ip.c ^ 2 + ip.s ^ 2 = 1) (hbp : bp.c ^ 2 + bp.s ^ 2 = 1) :
    ParserIo.internal_to_absolute_transform T ip bp =
        (ip.transform T.compose).transform bp.inverse ∧
      ParserIo.absolute_to_internal_transform
          (ParserIo.internal_to_absolute_transform T ip bp).decompose ip bp = T.compose ∧
      (ParserIo.absolute_to_internal_transform
          (ParserIo.internal_to_absolute_transform T ip bp).decompose ip bp).decompose = T := by
  have h1 : ParserIo.internal_to_absolute_transform T ip bp =
      (ip.transform T.compose).transform bp.inverse := by
    unfold ParserIo.internal_to_absolute_transform
    rw [Geo.Transformation.transform_from_decomposed, Geo.Transformation.empty_transform]
  have h2 : ParserIo.absolute_to_internal_transform
      (ParserIo.internal_to_absolute_transform T ip bp).decompose ip bp = T.compose := by
    unfold ParserIo.absolute_to_internal_transform
    rw [Geo.Transformation.transform_from_decomposed, Geo.Transformation.empty_transform,
      Geo.DTransformation.compose_decompose, h1]
    rw [Geo.Transformation.transform_assoc, Geo.Transformation.transform_assoc,
      Geo.Transformation.inverse_transform_cancel bp hbp, Geo.Transformation.transform_empty,
      ← Geo.Transformation.transform_assoc, Geo.Transformation.inverse_transform_cancel ip hip,
      Geo.Transformation.empty_transform]
  exact ⟨h1, h2, by rw [h2]; rfl⟩

/-- Witness for C8: a 3-4-5 rotation item pretransform and a quarter-turn
bin pretransform round-trip an arbitrary decomposed transformation. -/
theorem transform_round_trip_witness :
    ((3 : ℚ) / 5) ^ 2 + ((4 : ℚ) / 5) ^ 2 = 1 ∧ ((0 : ℚ)) ^ 2 + ((1 : ℚ)) ^ 2 = 1 ∧
      (ParserIo.absolute_to_internal_transform
          (ParserIo.internal_to_absolute_transform ⟨2, 3, 5, 7⟩ ⟨3 / 5, 4 / 5, 1, -2⟩
            ⟨0, 1, 10, 20⟩).decompose ⟨3 / 5, 4 / 5, 1, -2⟩ ⟨0, 1, 10, 20⟩).decompose =
        (⟨2, 3, 5, 7⟩ : Geo.DTransformation) := by
  refine ⟨by norm_num, by norm_num, ?_⟩
  exact (transform_round_trip ⟨2, 3, 5, 7⟩ ⟨3 / 5, 4 / 5, 1, -2⟩ ⟨0, 1, 10, 20⟩
    (by norm_num) (by norm_num)).2.2

namespace Jaguars

/-- Return type of `Problem::place_item` as declared in
`entities/problems/problem.rs` line 36
(`fn place_item(&mut self, i_opt: &PlacingOption);`): the unit type. -/
inductive PlaceItemRet where
  | unit
deriving DecidableEq

/-- The claim's minimal requirement on `place_item`'s return value: to
distinguish `Placed(layout_index, uid)` from `Rejected(reason)` the return
type must contain two distinct values. -/
def place_item_ret_distinguishes : Prop :=
  ∃ r1 r2 : PlaceItemRet, r1 ≠ r2

/-- Modelled from the spec: a placing option as far as the problem's item
bookkeeping is concerned, a target layout index and an item id (the other
fields of `PlacingOption` are geometric). -/
structure PlacingOptionM where
  layout_index : ℕ
  item_id : ℕ
deriving DecidableEq

/-- Modelled from the spec: the observable counter state of a `Problem` —
the instance's target quantity per item id, the active layouts (each the
list of item ids placed in it) and the per-item missing-quantity counters.
The bodies of `place_item`, `remove_item`, `create_solution` and
`restore_to_solution` live in `problems/bin_packing.rs` and
`problems/strip_packing.rs`, which are not among the provided sources;
only the trait and its counter helpers `register_included_item` and
`unregister_included_item` (problem.rs lines 113-125) are. -/
structure ProblemM where
  target_qtys : List ℕ
  layouts : List (List ℕ)
  missing_item_qtys : List ℤ
deriving DecidableEq

/-- Number of placed instances of item `i` across all active layouts. -/
def placed_qty (layouts : List (List ℕ)) (i : ℕ) : ℕ :=
  (layouts.map (fun l => l.count i)).sum

/-- A fresh problem: no active layouts, every counter at its target. -/
def ProblemM.init (target : List ℕ) : ProblemM :=
  ⟨target, [], target.map Int.ofNat⟩

/-- Modelled from the spec: `place_item` — place the item in the chosen
layout (materializing a new active layout when an empty template is
chosen), and decrement the item's missing quantity via
`register_included_item`.  Per the spec the placement is rejected (here: a
no-op) when the item's target quantity is already met
(`QuantityExhausted`) or the option is otherwise invalid; the returned
status is the unit value, as declared in problem.rs line 36. -/
def ProblemM.place_item (p : ProblemM) (opt : PlacingOptionM) : ProblemM × PlaceItemRet :=
  if opt.item_id < p.missing_item_qtys.length ∧ 0 < p.missing_item_qtys.getD opt.item_id 0 ∧
      opt.layout_index ≤ p.layouts.length then
    ({ p with
        layouts :=
          if opt.layout_index < p.layouts.length then
            p.layouts.set opt.layout_index
              ((p.layouts.getD opt.layout_index []) ++ [opt.item_id])
          else
            p.layouts ++ [[opt.item_id]],
        missing_item_qtys :=
          p.missing_item_qtys.set opt.item_id
            (p.missing_item_qtys.getD opt.item_id 0 - 1) },
      PlaceItemRet.unit)
  else
    (p, PlaceItemRet.unit)

/-- Modelled from the spec: `remove_item` — remove one placed instance from
the chosen layout, increment the item's missing quantity via
`unregister_included_item`, and move the layout back to the empty
templates when it becomes empty. -/
def ProblemM.remove_item (p : ProblemM) (layout_index item_id : ℕ) : ProblemM :=
  if layout_index < p.layouts.length ∧ item_id ∈ p.layouts.getD layout_index [] ∧
      item_id < p.missing_item_qtys.length then
    let newLayout := (p.layouts.getD layout_index []).erase item_id
    let layouts' := p.layouts.set layout_index newLayout
    { p with
      layouts := if newLayout = [] then layouts'.eraseIdx layout_index else layouts',
      missing_item_qtys :=
        p.missing_item_qtys.set item_id (p.missing_item_qtys.getD item_id 0 + 1) }
  else
    p

/-- Modelled from the spec: a `Solution` snapshot, reduced to the fields
the missing-quantity claim observes — the layout snapshots and the target
quantities. -/
structure SolutionM where
  layout_snapshots : List (List ℕ)
  target_item_qtys : List ℕ
deriving DecidableEq

/-- Modelled from the spec: `create_solution` snapshots the active
layouts and copies the quantities. -/
def ProblemM.create_solution (p : ProblemM) : SolutionM :=
  ⟨p.layouts, p.target_qtys⟩

/-- Modelled from the spec: `restore_to_solution` replaces the active
layouts with the solution's snapshots and recomputes the missing
quantities. -/
def ProblemM.restore_to_solution (p : ProblemM) (s : SolutionM) : ProblemM :=
  { p with
    layouts := s.layout_snapshots,
    missing_item_qtys :=
      (List.range p.target_qtys.length).map
        (fun i => (p.target_qtys.getD i 0 : ℤ) - (placed_qty s.layout_snapshots i : ℤ)) }

/-- Problem states reachable from a fresh problem by any sequence of
`place_item`, `remove_item` and `restore_to_solution` operations, the
latter restoring to a solution created from a reachable state of the same
instance. -/
inductive ReachableM : ProblemM → Prop where
  | init (target : List ℕ) : ReachableM (ProblemM.init target)
  | place (p : ProblemM) (opt : PlacingOptionM) :
      ReachableM p → ReachableM (p.place_item opt).1
  | remove (p : ProblemM) (layout_index item_id : ℕ) :
      ReachableM p → ReachableM (p.remove_item layout_index item_id)
  | restore (p q : ProblemM) :
      ReachableM p → ReachableM q → p.target_qtys = q.target_qtys →
      ReachableM (q.restore_to_solution p.create_solution)

/-- The missing-quantity invariant: counters have the instance's width,
each equals target minus placed, and none is negative. -/
def InvM (p : ProblemM) : Prop :=
  p.missing_item_qtys.length = p.target_qtys.length ∧
    ∀ i < p.target_qtys.length,
      p.missing_item_qtys.getD i 0 =
          (p.target_qtys.getD i 0 : ℤ) - (placed_qty p.layouts i : ℤ) ∧
        0 ≤ p.missing_item_qtys.getD i 0

end Jaguars

/-- Claim C4 counterexample: the return type of `Problem::place_item` is
the unit type, so no return value can distinguish a successful placement
from a rejection. -/
theorem place_item_no_result_counterexample : ¬ Jaguars.place_item_ret_distinguishes := by
  rintro ⟨r1, r2, hne⟩
  cases r1
  cases r2
  exact hne rfl

/-- Claim C4 as amended: `place_item` returns no status — its return value
is the same unit value for every problem state and placing option, so
`NoStock`, `QuantityExhausted` and `Collision` rejections are not reported
through a return value. -/
theorem place_item_returns_unit (p p' : Jaguars.ProblemM)
    (o o' : Jaguars.PlacingOptionM) :
    (p.place_item o).2 = (p'.place_item o').2 ∧
      (p.place_item o).2 = Jaguars.PlaceItemRet.unit := by
  constructor
  · cases (p.place_item o).2
    cases (p'.place_item o').2
    rfl
  · cases (p.place_item o).2
    rfl

theorem list_getD_set_self {α : Type} (l : List α) (i : ℕ) (v d : α) (h : i < l.length) :
    (l.set i v).getD i d = v := by
  rw [List.getD_eq_getElem?_getD, List.getElem?_set_self h]
  rfl

theorem list_getD_set_ne {α : Type} (l : List α) (i j : ℕ) (v d : α) (h : i ≠ j) :
    (l.set i v).getD j d = l.getD j d := by
  rw [List.getD_eq_getElem?_getD, List.getElem?_set_ne h, ← List.getD_eq_getElem?_getD]

theorem list_getD_map_range (f : ℕ → ℤ) (n i : ℕ) (h : i < n) :
    ((List.range n).map f).getD i 0 = f i := by
  rw [List.getD_eq_getElem?_getD, List.getElem?_map, List.getElem?_range h]
  rfl

theorem list_getD_map_intCast (target : List ℕ) (i : ℕ) (h : i < target.length) :
    (target.map Int.ofNat).getD i 0 = (target.getD i 0 : ℤ) := by
  induction target generalizing i with
  | nil => simp at h
  | cons a t ih =>
    cases i with
    | zero => rfl
    | succ n => exact ih n (by simpa using h)

theorem map_sum_set {α : Type} (f : α → ℕ) (l : List α) (j : ℕ) (v d : α) (h : j < l.length) :
    ((l.set j v).map f).sum + f (l.getD j d) = (l.map f).sum + f v := by
  induction l generalizing j with
  | nil => simp at h
  | cons a t ih =>
    cases j with
    | zero =>
      simp only [List.set, List.map_cons, List.sum_cons, List.getD_cons_zero]
      omega
    | succ n =>
      have h' : n < t.length := by simpa using h
      have hrec := ih n h'
      simp only [List.set, List.map_cons, List.sum_cons, List.getD_cons_succ]
      omega

theorem map_sum_eraseIdx {α : Type} (f : α → ℕ) (l : List α) (j : ℕ) (d : α)
    (h : j < l.length) :
    ((l.eraseIdx j).map f).sum + f (l.getD j d) = (l.map f).sum := by
  induction l generalizing j with
  | nil => simp at h
  | cons a t ih =>
    cases j with
    | zero =>
      simp only [List.eraseIdx, List.getD_cons_zero, List.map_cons, List.sum_cons]
      omega
    | succ n =>
      have h' : n < t.length := by simpa using h
      have hrec := ih n h'
      simp only [List.eraseIdx, List.map_cons, List.sum_cons, List.getD_cons_succ]
      omega

theorem placed_qty_set_append (layouts : List (List ℕ)) (j x i : ℕ) (h : j < layouts.length) :
    Jaguars.placed_qty (layouts.set j (layouts.getD j [] ++ [x])) i =
      Jaguars.placed_qty layouts i + if x = i then 1 else 0 := by
  by_cases hx : x = i
  · subst hx
    have hs := map_sum_set (fun l => l.count x) layouts j (layouts.getD j [] ++ [x]) [] h
    have hcnt : (layouts.getD j [] ++ [x]).count x = (layouts.getD j []).count x + 1 := by
      simp [List.count_append]
    rw [if_pos rfl]
    unfold Jaguars.placed_qty
    dsimp only at hs
    rw [hcnt] at hs
    omega
  · have hs := map_sum_set (fun l => l.count i) layouts j (layouts.getD j [] ++ [x]) [] h
    have hcnt : (layouts.getD j [] ++ [x]).count i = (layouts.getD j []).count i := by
      simp [List.count_append, List.count_singleton, hx]
    rw [if_neg hx]
    unfold Jaguars.placed_qty
    dsimp only at hs
    rw [hcnt] at hs
    omega

theorem placed_qty_append (layouts : List (List ℕ)) (x i : ℕ) :
    Jaguars.placed_qty (layouts ++ [[x]]) i =
      Jaguars.placed_qty layouts i + if x = i then 1 else 0 := by
  by_cases hx : x = i <;>
    simp [Jaguars.placed_qty, List.count_singleton, hx, List.count_cons]

theorem placed_qty_set_erase (layouts : List (List ℕ)) (j x i : ℕ) (h : j < layouts.length)
    (hmem : x ∈ layouts.getD j []) :
    Jaguars.placed_qty (layouts.set j ((layouts.getD j []).erase x)) i +
        (if x = i then 1 else 0) = Jaguars.placed_qty layouts i := by
  have hpos : 0 < (layouts.getD j []).count x := List.count_pos_iff.mpr hmem
  by_cases hx : x = i
  · subst hx
    have hs := map_sum_set (fun l => l.count x) layouts j ((layouts.getD j []).erase x) [] h
    have hcnt : ((layouts.getD j []).erase x).count x = (layouts.getD j []).count x - 1 := by
      simp [List.count_erase]
    rw [if_pos rfl]
    unfold Jaguars.placed_qty
    dsimp only at hs
    rw [hcnt] at hs
    omega
  · have hs := map_sum_set (fun l => l.count i) layouts j ((layouts.getD j []).erase x) [] h
    have hcnt : ((layouts.getD j []).erase x).count i = (layouts.getD j []).count i := by
      simp [List.count_erase, hx]
    rw [if_neg hx]
    unfold Jaguars.placed_qty
    dsimp only at hs
    rw [hcnt] at hs
    omega

theorem placed_qty_eraseIdx_zero (layouts : List (List ℕ)) (j i : ℕ) (h : j < layouts.length)
    (hnil : layouts.getD j [] = []) :
    Jaguars.placed_qty (layouts.eraseIdx j) i = Jaguars.placed_qty layouts i := by
  have hs := map_sum_eraseIdx (fun l => l.count i) layouts j [] h
  rw [hnil] at hs
  unfold Jaguars.placed_qty
  simpa using hs

theorem inv_init (target : List ℕ) : Jaguars.InvM (Jaguars.ProblemM.init target) := by
  constructor
  · show (target.map Int.ofNat).length = target.length
    rw [List.length_map]
  · intro i hi
    simp only [Jaguars.ProblemM.init] at hi ⊢
    rw [list_getD_map_intCast target i hi]
    refine ⟨by simp [Jaguars.placed_qty], by positivity⟩

theorem inv_place (p : Jaguars.ProblemM) (opt : Jaguars.PlacingOptionM)
    (hp : Jaguars.InvM p) : Jaguars.InvM (p.place_item opt).1 := by
  unfold Jaguars.ProblemM.place_item
  split
  case isTrue hcond =>
    obtain ⟨hid, hposm, hle⟩ := hcond
    obtain ⟨hlen, hinv⟩ := hp
    refine ⟨?_, ?_⟩
    · show (p.missing_item_qtys.set opt.item_id
          (p.missing_item_qtys.getD opt.item_id 0 - 1)).length = p.target_qtys.length
      rw [List.length_set, hlen]
    · intro i hi
      dsimp only at hi ⊢
      have hplaced : Jaguars.placed_qty
          (if opt.layout_index < p.layouts.length then
            p.layouts.set opt.layout_index ((p.layouts.getD opt.layout_index []) ++ [opt.item_id])
          else p.layouts ++ [[opt.item_id]]) i =
          Jaguars.placed_qty p.layouts i + if opt.item_id = i then 1 else 0 := by
        by_cases hjl : opt.layout_index < p.layouts.length
        · rw [if_pos hjl]
          exact placed_qty_set_append p.layouts opt.layout_index opt.item_id i hjl
        · rw [if_neg hjl]
          exact placed_qty_append p.layouts opt.item_id i
      by_cases hii : opt.item_id = i
      · subst hii
        have hget : (p.missing_item_qtys.set opt.item_id
            (p.missing_item_qtys.getD opt.item_id 0 - 1)).getD opt.item_id 0 =
            p.missing_item_qtys.getD opt.item_id 0 - 1 :=
          list_getD_set_self _ _ _ _ hid
        obtain ⟨heq, _⟩ := hinv opt.item_id hi
        rw [if_pos rfl] at hplaced
        refine ⟨?_, ?_⟩
        · rw [hget, hplaced]
          omega
        · rw [hget]
          omega
      · have hget : (p.missing_item_qtys.set opt.item_id
            (p.missing_item_qtys.getD opt.item_id 0 - 1)).getD i 0 =
            p.missing_item_qtys.getD i 0 :=
          list_getD_set_ne _ _ _ _ _ hii
        rw [if_neg hii] at hplaced
        obtain ⟨heq, hnn⟩ := hinv i hi
        refine ⟨?_, ?_⟩
        · rw [hget, hplaced]
          omega
        · rw [hget]
          exact hnn
  case isFalse hcond => exact hp

theorem inv_remove (p : Jaguars.ProblemM) (li ii : ℕ) (hp : Jaguars.InvM p) :
    Jaguars.InvM (p.remove_item li ii) := by
  unfold Jaguars.ProblemM.remove_item
  split
  case isTrue hcond =>
    obtain ⟨hli, hmem, hii_len⟩ := hcond
    obtain ⟨hlen, hinv⟩ := hp
    refine ⟨?_, ?_⟩
    · show (p.missing_item_qtys.set ii (p.missing_item_qtys.getD ii 0 + 1)).length
          = p.target_qtys.length
      rw [List.length_set, hlen]
    · intro i hi
      dsimp only at hi ⊢
      have hplaced1 : Jaguars.placed_qty
          (p.layouts.set li ((p.layouts.getD li []).erase ii)) i +
            (if ii = i then 1 else 0) = Jaguars.placed_qty p.layouts i :=
        placed_qty_set_erase p.layouts li ii i hli hmem
      have hplaced2 : Jaguars.placed_qty
          (if (p.layouts.getD li []).erase ii = [] then
            (p.layouts.set li ((p.layouts.getD li []).erase ii)).eraseIdx li
          else p.layouts.set li ((p.layouts.getD li []).erase ii)) i =
          Jaguars.placed_qty (p.layouts.set li ((p.layouts.getD li []).erase ii)) i := by
        by_cases hnil : (p.layouts.getD li []).erase ii = []
        · rw [if_pos hnil]
          apply placed_qty_eraseIdx_zero
          · rw [List.length_set]
            exact hli
          · rw [list_getD_set_self p.layouts li _ [] hli]
            exact hnil
        · rw [if_neg hnil]
      by_cases hiq : ii = i
      · subst hiq
        have hget : (p.missing_item_qtys.set ii (p.missing_item_qtys.getD ii 0 + 1)).getD ii 0 =
            p.missing_item_qtys.getD ii 0 + 1 :=
          list_getD_set_self _ _ _ _ hii_len
        obtain ⟨heq, hnn⟩ := hinv ii hi
        rw [if_pos rfl] at hplaced1
        refine ⟨?_, ?_⟩
        · rw [hget, hplaced2]
          omega
        · rw [hget]
          omega
      · have hget : (p.missing_item_qtys.set ii (p.missing_item_qtys.getD ii 0 + 1)).getD i 0 =
            p.missing_item_qtys.getD i 0 :=
          list_getD_set_ne _ _ _ _ _ hiq
        rw [if_neg hiq] at hplaced1
        obtain ⟨heq, hnn⟩ := hinv i hi
        refine ⟨?_, ?_⟩
        · rw [hget, hplaced2]
          omega
        · rw [hget]
          exact hnn
  case isFalse hcond => exact hp

theorem inv_restore (p q : Jaguars.ProblemM) (hp : Jaguars.InvM p)
    (ht : p.target_qtys = q.target_qtys) :
    Jaguars.InvM (q.restore_to_solution p.create_solution) := by
  obtain ⟨hlen, hinv⟩ := hp
  unfold Jaguars.ProblemM.restore_to_solution Jaguars.ProblemM.create_solution
  refine ⟨?_, ?_⟩
  · show ((List.range q.target_qtys.length).map _).length = q.target_qtys.length
    rw [List.length_map, List.length_range]
  · intro i hi
    dsimp only at hi ⊢
    rw [list_getD_map_range _ _ _ hi]
    have hi' : i < p.target_qtys.length := by rw [ht]; exact hi
    obtain ⟨heq, hnn⟩ := hinv i hi'
    have hsame : (p.target_qtys.getD i 0 : ℤ) = (q.target_qtys.getD i 0 : ℤ) := by rw [ht]
    exact ⟨rfl, by omega⟩

/-- Claim C3: in every problem state reachable by any sequence of
`place_item`, `remove_item` and `restore_to_solution` operations, each
missing-quantity counter equals the instance's target quantity minus the
number of placed instances of the item across all active layouts, and is
never negative. -/
theorem problem_missing_qty_invariant (p : Jaguars.ProblemM) (h : Jaguars.ReachableM p) :
    ∀ i < p.target_qtys.length,
      p.missing_item_qtys.getD i 0 =
          (p.target_qtys.getD i 0 : ℤ) - (Jaguars.placed_qty p.layouts i : ℤ) ∧
        0 ≤ p.missing_item_qtys.getD i 0 := by
  have hinv : Jaguars.InvM p := by
    induction h with
    | init target => exact inv_init target
    | place q opt _ ih => exact inv_place q opt ih
    | remove q li ii _ ih => exact inv_remove q li ii ih
    | restore q r _ _ heq ihq ihr => exact inv_restore q r ihq heq
  exact hinv.2

/-- Concrete reachable state used by the C3 witness: one item of id 0
placed into a fresh two-item problem. -/
def c3_state : Jaguars.ProblemM := ((Jaguars.ProblemM.init [2, 1]).place_item ⟨0, 0⟩).1

/-- Witness for C3: after placing one instance of item 0 against a target
of 2, its missing counter is target minus placed and non-negative. -/
theorem problem_missing_qty_invariant_witness :
    c3_state.missing_item_qtys.getD 0 0 =
        (c3_state.target_qtys.getD 0 0 : ℤ) - (Jaguars.placed_qty c3_state.layouts 0 : ℤ) ∧
      0 ≤ c3_state.missing_item_qtys.getD 0 0 := by
  have hr : Jaguars.ReachableM c3_state :=
    Jaguars.ReachableM.place _ ⟨0, 0⟩ (Jaguars.ReachableM.init [2, 1])
  exact problem_missing_qty_invariant c3_state hr 0 (by decide)

namespace Poi

/-!
Embedding of `geometry/fail_fast/poi.rs` (jagua-rs crate).  The polygon and
the existing poles enter `POINode::new` only through the signed distance of
a candidate centroid to the nearest border (poi.rs lines 105-121) and
through `bbox.diameter()`; both involve square roots, so they are
abstracted as the parameters `nodeDist` and `diam`.
-/

/-- Depth bound of the PoI quadtree (`MAX_POI_TREE_DEPTH`). -/
def MAX_POI_TREE_DEPTH : ℕ := 10

/-- A node of the PoI search quadtree (`POINode`). -/
structure POINode where
  level : ℕ
  bbox : Geo.AARectangle
  radius : ℚ
  distance : ℚ
deriving DecidableEq

/-- Construction of a node (`POINode::new`, poi.rs lines 99-129): the
radius is half the bbox diameter and the distance is the signed distance
of the bbox centroid to the nearest border of the polygon or of an
existing pole, both supplied through the abstracted parameters. -/
def POINode.new (nodeDist : Geo.Point → ℚ) (diam : Geo.AARectangle → ℚ)
    (bbox : Geo.AARectangle) (level : ℕ) : POINode :=
  { level := level, bbox := bbox, radius := diam bbox / 2,
    distance := nodeDist bbox.centroid }

/-- Upper bound on the radius achievable inside the node
(`POINode::distance_upperbound`). -/
def POINode.distance_upperbound (n : POINode) : ℚ :=
  n.radius + n.distance

/-- Splitting a node into its four quadrants, refusing at depth budget zero
(`POINode::split`, poi.rs lines 131-140). -/
def POINode.split (nodeDist : Geo.Point → ℚ) (diam : Geo.AARectangle → ℚ)
    (n : POINode) : Option (List POINode) :=
  match n.level with
  | 0 => none
  | l + 1 => some (n.bbox.quadrants.map (fun qd => POINode.new nodeDist diam qd l))

/-- The `distance` closure of `generate_next_pole`: radius of the best
circle so far, 0 when there is none. -/
def bestDistance : Option Geo.Circle → ℚ
  | none => 0
  | some c => c.radius

/-- One best-circle update of the loop body (poi.rs lines 21-24): replace
the best circle when the node's distance strictly exceeds its radius. -/
def step_best (node : POINode) (best : Option Geo.Circle) : Option Geo.Circle :=
  if node.distance > bestDistance best then
    some ⟨node.bbox.centroid, node.distance⟩
  else
    best

/-- One queue update of the loop body (poi.rs lines 26-31): append the four
children at the back of the FIFO queue when the node's distance upper
bound strictly exceeds the updated best radius and the node can still be
split. -/
def step_queue (nodeDist : Geo.Point → ℚ) (diam : Geo.AARectangle → ℚ)
    (node : POINode) (rest : List POINode) (best : Option Geo.Circle) : List POINode :=
  if node.distance_upperbound > bestDistance best then
    match node.split nodeDist diam with
    | some children => rest ++ children
    | none => rest
  else
    rest

/-- The FIFO loop of `generate_next_pole` (poi.rs lines 20-32), written
with an explicit fuel so that termination is a theorem rather than an
assumption: `none` means the fuel ran out, `some best` that the queue
emptied with `best` as the final best circle. -/
def process (nodeDist : Geo.Point → ℚ) (diam : Geo.AARectangle → ℚ) :
    ℕ → List POINode → Option Geo.Circle → Option (Option Geo.Circle)
  | _, [], best => some best
  | 0, _ :: _, _ => none
  | fuel + 1, node :: rest, best =>
    process nodeDist diam fuel
      (step_queue nodeDist diam node rest (step_best node best))
      (step_best node best)

/-- Weight of a node: the size bound of its residual subtree. -/
def node_weight (n : POINode) : ℕ := 5 ^ n.level

/-- Total weight of a queue, a strictly decreasing measure of the loop. -/
def queue_weight (q : List POINode) : ℕ := (q.map node_weight).sum

/-- The pole generator (`generate_next_pole`, poi.rs lines 12-34): run the
FIFO loop from the root node at depth `MAX_POI_TREE_DEPTH`; the fuel is
the root's weight, which the termination theorem shows to be sufficient.
The source's final `best.expect("no pole present")` panic is modelled by
returning `none`. -/
def generate_next_pole (nodeDist : Geo.Point → ℚ) (diam : Geo.AARectangle → ℚ)
    (square_bbox : Geo.AARectangle) : Option Geo.Circle :=
  let root := POINode.new nodeDist diam square_bbox MAX_POI_TREE_DEPTH
  (process nodeDist diam (queue_weight [root]) [root] none).getD none

end Poi

theorem process_nil (nodeDist : Geo.Point → ℚ) (diam : Geo.AARectangle → ℚ)
    (fuel : ℕ) (best : Option Geo.Circle) :
    Poi.process nodeDist diam fuel [] best = some best := by
  cases fuel <;> rfl

theorem queue_weight_cons (n : Poi.POINode) (rest : List Poi.POINode) :
    Poi.queue_weight (n :: rest) = 5 ^ n.level + Poi.queue_weight rest := by
  simp [Poi.queue_weight, Poi.node_weight]

theorem queue_weight_append (a b : List Poi.POINode) :
    Poi.queue_weight (a ++ b) = Poi.queue_weight a + Poi.queue_weight b := by
  simp [Poi.queue_weight]

theorem split_children (nodeDist : Geo.Point → ℚ) (diam : Geo.AARectangle → ℚ)
    (n : Poi.POINode) (l : ℕ) (h : n.level = l + 1) :
    ∃ cs, n.split nodeDist diam = some cs ∧ cs.length = 4 ∧
      Poi.queue_weight cs = 4 * 5 ^ l ∧ ∀ c ∈ cs, c.level = l := by
  refine ⟨n.bbox.quadrants.map (fun qd => Poi.POINode.new nodeDist diam qd l), ?_, ?_, ?_, ?_⟩
  · rw [Poi.POINode.split, h]
  · simp [Geo.AARectangle.quadrants]
  · have : ∀ qd, Poi.node_weight (Poi.POINode.new nodeDist diam qd l) = 5 ^ l := fun _ => rfl
    simp only [Poi.queue_weight, Geo.AARectangle.quadrants, List.map_cons, List.map_nil,
      List.sum_cons, List.sum_nil, this]
    omega
  · intro c hc
    simp only [List.mem_map] at hc
    obtain ⟨qd, _, rfl⟩ := hc
    rfl

theorem step_queue_weight (nodeDist : Geo.Point → ℚ) (diam : Geo.AARectangle → ℚ)
    (node : Poi.POINode) (rest : List Poi.POINode) (best : Option Geo.Circle) :
    Poi.queue_weight (Poi.step_queue nodeDist diam node rest best) + 1 ≤
      Poi.queue_weight (node :: rest) := by
  have hone : 1 ≤ 5 ^ node.level := Nat.one_le_pow _ _ (by norm_num)
  rw [queue_weight_cons]
  unfold Poi.step_queue
  split
  · cases hl : node.level with
    | zero =>
      have hnone : node.split nodeDist diam = none := by rw [Poi.POINode.split, hl]
      simp only [hnone]
      omega
    | succ l =>
      obtain ⟨cs, hcs, _, hw, _⟩ := split_children nodeDist diam node l hl
      simp only [hcs]
      rw [queue_weight_append, hw, pow_succ]
      have hone' : 1 ≤ 5 ^ l := Nat.one_le_pow _ _ (by norm_num)
      omega
  · omega

theorem process_total (nodeDist : Geo.Point → ℚ) (diam : Geo.AARectangle → ℚ) :
    ∀ (fuel : ℕ) (queue : List Poi.POINode) (best : Option Geo.Circle),
      Poi.queue_weight queue ≤ fuel →
      ∃ r, Poi.process nodeDist diam fuel queue best = some r := by
  intro fuel
  induction fuel with
  | zero =>
    intro queue best h
    cases queue with
    | nil => exact ⟨best, rfl⟩
    | cons n rest =>
      have hone : 1 ≤ 5 ^ n.level := Nat.one_le_pow _ _ (by norm_num)
      rw [queue_weight_cons] at h
      omega
  | succ f ih =>
    intro queue best h
    cases queue with
    | nil => exact ⟨best, rfl⟩
    | cons node rest =>
      have hstep := step_queue_weight nodeDist diam node rest (Poi.step_best node best)
      exact ih (Poi.step_queue nodeDist diam node rest (Poi.step_best node best))
        (Poi.step_best node best) (by omega)

/-- Claim C6: `generate_next_pole` terminates on every input — the FIFO
loop empties its queue within the explicit work bound given by the root's
weight `5 ^ MAX_POI_TREE_DEPTH` — processing nodes as described: the
root starts at depth budget `MAX_POI_TREE_DEPTH = 10`; a node splits into
its four quadrants, each one depth level lower, only when its distance
upper bound strictly exceeds the current best radius (equality never
splits) and its depth budget is nonzero; the best circle is centered at
the updating node's centroid with radius that node's distance, and is
returned once the queue is empty. -/
theorem generate_next_pole_terminates (nodeDist : Geo.Point → ℚ)
    (diam : Geo.AARectangle → ℚ) (square_bbox : Geo.AARectangle) :
    Poi.MAX_POI_TREE_DEPTH = 10 ∧
      (Poi.POINode.new nodeDist diam square_bbox Poi.MAX_POI_TREE_DEPTH).level = 10 ∧
      Poi.queue_weight [Poi.POINode.new nodeDist diam square_bbox Poi.MAX_POI_TREE_DEPTH] =
        5 ^ 10 ∧
      (∃ r, Poi.process nodeDist diam (5 ^ 10)
          [Poi.POINode.new nodeDist diam square_bbox Poi.MAX_POI_TREE_DEPTH] none = some r ∧
        Poi.generate_next_pole nodeDist diam square_bbox = r) ∧
      (∀ (fuel : ℕ) (best : Option Geo.Circle),
        Poi.process nodeDist diam fuel [] best = some best) ∧
      (∀ n : Poi.POINode, n.level = 0 → n.split nodeDist diam = none) ∧
      (∀ (n : Poi.POINode) (l : ℕ), n.level = l + 1 →
        ∃ cs, n.split nodeDist diam = some cs ∧ cs.length = 4 ∧ ∀ c ∈ cs, c.level = l) ∧
      (∀ (f : ℕ) (node : Poi.POINode) (rest : List Poi.POINode) (best : Option Geo.Circle),
        Poi.process nodeDist diam (f + 1) (node :: rest) best =
          Poi.process nodeDist diam f
            (Poi.step_queue nodeDist diam node rest (Poi.step_best node best))
            (Poi.step_best node best)) ∧
      (∀ (node : Poi.POINode) (best : Option Geo.Circle),
        (node.distance > Poi.bestDistance best →
          Poi.step_best node best = some ⟨node.bbox.centroid, node.distance⟩) ∧
        (¬ node.distance > Poi.bestDistance best → Poi.step_best node best = best)) ∧
      (∀ (node : Poi.POINode) (rest : List Poi.POINode) (best : Option Geo.Circle),
        ¬ node.distance_upperbound > Poi.bestDistance best →
          Poi.step_queue nodeDist diam node rest best = rest) := by
  have hw : Poi.queue_weight
      [Poi.POINode.new nodeDist diam square_bbox Poi.MAX_POI_TREE_DEPTH] = 5 ^ 10 := by
    simp [Poi.queue_weight, Poi.node_weight, Poi.POINode.new, Poi.MAX_POI_TREE_DEPTH]
  refine ⟨rfl, rfl, hw, ?_, ?_, ?_, ?_, ?_, ?_, ?_⟩
  · obtain ⟨r, hr⟩ := process_total nodeDist diam (5 ^ 10)
      [Poi.POINode.new nodeDist diam square_bbox Poi.MAX_POI_TREE_DEPTH] none (le_of_eq hw)
    refine ⟨r, hr, ?_⟩
    unfold Poi.generate_next_pole
    simp only [hw, hr, Option.getD_some]
  · exact fun fuel best => process_nil nodeDist diam fuel best
  · intro n hn
    rw [Poi.POINode.split, hn]
  · intro n l hn
    obtain ⟨cs, hcs, hlen, _, hlev⟩ := split_children nodeDist diam n l hn
    exact ⟨cs, hcs, hlen, hlev⟩
  · intro f node rest best
    rfl
  · intro node best
    constructor
    · intro hgt
      rw [Poi.step_best, if_pos hgt]
    · intro hngt
      rw [Poi.step_best, if_neg hngt]
  · intro node rest best hngt
    rw [Poi.step_queue, if_neg hngt]

/-- Witness for C6: a concrete zero-level node never splits, through the
claim's theorem. -/
theorem generate_next_pole_terminates_witness :
    (Poi.POINode.mk 0 ⟨0, 0, 1, 1⟩ 1 1).split (fun _ => 0) (fun _ => 0) = none := by
  have h := generate_next_pole_terminates (fun _ => 0) (fun _ => 0) ⟨0, 0, 1, 1⟩
  exact h.2.2.2.2.2.1 (Poi.POINode.mk 0 ⟨0, 0, 1, 1⟩ 1 1) rfl

namespace Poi

/-- The pole-generation loop of `generate_additional_surrogate_poles`
(poi.rs lines 48-59): starting from `[PoI]`, call `generate_next_pole` up
to `max_poles` times, adding each new pole and its area, and break as soon
as the running total pole area strictly exceeds the goal.
`generate_next_pole` enters through the parameter `gnp` (its other inputs
are fixed during the loop) and the circle area `π·r²`, which is not
rational, through the parameter `cArea`. -/
def gen_poles_loop (gnp : List Geo.Circle → Geo.Circle) (cArea : Geo.Circle → ℚ)
    (pole_area_goal : ℚ) : ℕ → List Geo.Circle → ℚ → List Geo.Circle
  | 0, all_poles, _ => all_poles
  | n + 1, all_poles, total_pole_area =>
    let next := gnp all_poles
    let total' := total_pole_area + cArea next
    let all' := all_poles ++ [next]
    if total' > pole_area_goal then all' else gen_poles_loop gnp cArea pole_area_goal n all' total'

/-- The claim's stopping rule taken literally ("stops as soon as the total
pole area reaches at least the goal"): the same loop with a non-strict
comparison, named for the refutation of the claim as stated. -/
def gen_poles_loop_geq (gnp : List Geo.Circle → Geo.Circle) (cArea : Geo.Circle → ℚ)
    (pole_area_goal : ℚ) : ℕ → List Geo.Circle → ℚ → List Geo.Circle
  | 0, all_poles, _ => all_poles
  | n + 1, all_poles, total_pole_area =>
    let next := gnp all_poles
    let total' := total_pole_area + cArea next
    let all' := all_poles ++ [next]
    if total' ≥ pole_area_goal then all'
    else gen_poles_loop_geq gnp cArea pole_area_goal n all' total'

/-- The deterministic pole sequence: `pole_stream k` is the pole list after
`k` calls of `generate_next_pole` starting from `[PoI]`. -/
def pole_stream (gnp : List Geo.Circle → Geo.Circle) (poi : Geo.Circle) : ℕ → List Geo.Circle
  | 0 => [poi]
  | k + 1 => pole_stream gnp poi k ++ [gnp (pole_stream gnp poi k)]

/-- Total pole area after `k` generation steps (PoI included). -/
def stream_area (gnp : List Geo.Circle → Geo.Circle) (cArea : Geo.Circle → ℚ)
    (poi : Geo.Circle) (k : ℕ) : ℚ :=
  ((pole_stream gnp poi k).map cArea).sum

/-- Minimum distance from a candidate pole's center to the border of the
previously selected poles chained with the PoI (poi.rs lines 73-78). -/
def min_dist_prior (dist : Geo.Point → Geo.Point → ℚ) (poi : Geo.Circle)
    (sorted_poles : List Geo.Circle) (p : Geo.Circle) : ℚ :=
  let ds := (sorted_poles ++ [poi]).map
    (fun prior => (Geo.Circle.distance_from_border dist prior p.center).2)
  match ds with
  | [] => 0
  | x :: xs => xs.foldl min x

/-- The greedy objective of the pole sort (poi.rs line 79):
`radius² × min distance to the prior poles`. -/
def pole_obj_key (dist : Geo.Point → Geo.Point → ℚ) (poi : Geo.Circle)
    (sorted_poles : List Geo.Circle) (p : Geo.Circle) : ℚ :=
  p.radius ^ 2 * min_dist_prior dist poi sorted_poles p

/-- Index of the last maximal key, matching the tie behaviour of Rust's
`max_by_key` (poi.rs line 81). -/
def pick_index : List ℚ → ℕ
  | [] => 0
  | [_] => 0
  | x :: y :: t =>
    if x > (y :: t).getD (pick_index (y :: t)) 0 then 0 else pick_index (y :: t) + 1

/-- The greedy reordering of the additional poles (poi.rs lines 63-84):
repeatedly move the pole with the largest objective to the sorted list.
The fuel equals the number of unsorted poles, matching the source's
while-loop on the unsorted list. -/
def sort_poles (dist : Geo.Point → Geo.Point → ℚ) (poi : Geo.Circle) :
    ℕ → List Geo.Circle → List Geo.Circle → List Geo.Circle
  | 0, _, sorted_poles => sorted_poles
  | fuel + 1, unsorted_poles, sorted_poles =>
    match unsorted_poles with
    | [] => sorted_poles
    | u :: us =>
      let i := pick_index ((u :: us).map (pole_obj_key dist poi sorted_poles))
      sort_poles dist poi fuel ((u :: us).eraseIdx i)
        (sorted_poles ++ [(u :: us).getD i u])

/-- Additional surrogate pole generation
(`generate_additional_surrogate_poles`, poi.rs lines 37-87): run the
generation loop from `[PoI]` with goal `shape.area() × coverage_goal` and
initial total `PoI.area()`, drop the PoI, and greedily reorder the rest. -/
def generate_additional_surrogate_poles (gnp : List Geo.Circle → Geo.Circle)
    (cArea : Geo.Circle → ℚ) (dist : Geo.Point → Geo.Point → ℚ) (shapeArea : ℚ)
    (poi : Geo.Circle) (max_poles : ℕ) (coverage_goal : ℚ) : List Geo.Circle :=
  let additional_poles :=
    (gen_poles_loop gnp cArea (shapeArea * coverage_goal) max_poles [poi] (cArea poi)).drop 1
  sort_poles dist poi additional_poles.length additional_poles []

end Poi

theorem gen_poles_loop_succ (gnp : List Geo.Circle → Geo.Circle) (cArea : Geo.Circle → ℚ)
    (goal : ℚ) (n : ℕ) (all_poles : List Geo.Circle) (total : ℚ) :
    Poi.gen_poles_loop gnp cArea goal (n + 1) all_poles total =
      if total + cArea (gnp all_poles) > goal then all_poles ++ [gnp all_poles]
      else Poi.gen_poles_loop gnp cArea goal n (all_poles ++ [gnp all_poles])
        (total + cArea (gnp all_poles)) := rfl

theorem pole_stream_length (gnp : List Geo.Circle → Geo.Circle) (poi : Geo.Circle) :
    ∀ k, (Poi.pole_stream gnp poi k).length = k + 1 := by
  intro k
  induction k with
  | zero => rfl
  | succ n ih => simp [Poi.pole_stream, ih]

theorem stream_area_succ (gnp : List Geo.Circle → Geo.Circle) (cArea : Geo.Circle → ℚ)
    (poi : Geo.Circle) (k : ℕ) :
    Poi.stream_area gnp cArea poi (k + 1) =
      Poi.stream_area gnp cArea poi k + cArea (gnp (Poi.pole_stream gnp poi k)) := by
  simp [Poi.stream_area, Poi.pole_stream]

/-- The generation loop, started on the stream prefix `j` with matching
running area, produces the stream prefix `j + m` for the number `m` of
further calls, characterized by: the area total never strictly exceeded
the goal at any intermediate prefix, the loop stopped early only because
the last added pole pushed the total strictly past the goal, and either
the budget ran out or the total strictly passed the goal. -/
theorem gen_poles_loop_stream (gnp : List Geo.Circle → Geo.Circle)
    (cArea : Geo.Circle → ℚ) (poi : Geo.Circle) (goal : ℚ) :
    ∀ (fuel j : ℕ),
      ∃ m, m ≤ fuel ∧
        Poi.gen_poles_loop gnp cArea goal fuel (Poi.pole_stream gnp poi j)
            (Poi.stream_area gnp cArea poi j) = Poi.pole_stream gnp poi (j + m) ∧
        (∀ i, j < i → i < j + m → ¬ goal < Poi.stream_area gnp cArea poi i) ∧
        (m < fuel → goal < Poi.stream_area gnp cArea poi (j + m)) ∧
        (m = fuel ∨ goal < Poi.stream_area gnp cArea poi (j + m)) := by
  intro fuel
  induction fuel with
  | zero =>
    intro j
    refine ⟨0, le_refl 0, by simp [Poi.gen_poles_loop], ?_, ?_, Or.inl rfl⟩
    · intro i h1 h2
      omega
    · intro h
      omega
  | succ f ih =>
    intro j
    rw [gen_poles_loop_succ]
    have harea : Poi.stream_area gnp cArea poi j + cArea (gnp (Poi.pole_stream gnp poi j)) =
        Poi.stream_area gnp cArea poi (j + 1) := (stream_area_succ gnp cArea poi j).symm
    have hstream : Poi.pole_stream gnp poi j ++ [gnp (Poi.pole_stream gnp poi j)] =
        Poi.pole_stream gnp poi (j + 1) := rfl
    rw [harea, hstream]
    by_cases hstop : goal < Poi.stream_area gnp cArea poi (j + 1)
    · rw [if_pos hstop]
      refine ⟨1, by omega, rfl, ?_, fun _ => hstop, Or.inr hstop⟩
      intro i h1 h2
      omega
    · rw [if_neg hstop]
      obtain ⟨m, hm1, hm2, hm3, hm4, hm5⟩ := ih (j + 1)
      have harg : j + 1 + m = j + (m + 1) := by omega
      refine ⟨m + 1, by omega, ?_, ?_, ?_, ?_⟩
      · rw [hm2, harg]
      · intro i h1 h2
        by_cases hij : i = j + 1
        · rw [hij]
          exact hstop
        · exact hm3 i (by omega) (by omega)
      · intro h
        have := hm4 (by omega)
        rwa [harg] at this
      · rcases hm5 with h | h
        · exact Or.inl (by omega)
        · right
          rwa [harg] at h

theorem pick_index_lt : ∀ (l : List ℚ), l ≠ [] → Poi.pick_index l < l.length
  | [], h => absurd rfl h
  | [_], _ => Nat.zero_lt_one
  | x :: y :: t, _ => by
    have ih := pick_index_lt (y :: t) (List.cons_ne_nil y t)
    by_cases hx : x > (y :: t).getD (Poi.pick_index (y :: t)) 0
    · simp only [Poi.pick_index]
      rw [if_pos hx]
      simp
    · simp only [Poi.pick_index]
      rw [if_neg hx]
      simpa using Nat.succ_lt_succ ih

theorem getD_cons_eraseIdx_perm {α : Type} (d : α) :
    ∀ (l : List α) (i : ℕ), i < l.length → (l.getD i d :: l.eraseIdx i).Perm l
  | [], i, h => by simp at h
  | a :: t, 0, _ => List.Perm.refl (a :: t)
  | a :: t, i + 1, h => by
    have h' : i < t.length := by simpa using h
    have ih := getD_cons_eraseIdx_perm d t i h'
    exact (List.Perm.swap a (t.getD i d) (t.eraseIdx i)).trans (ih.cons a)

theorem sort_poles_cons (dist : Geo.Point → Geo.Point → ℚ) (poi : Geo.Circle) (fuel : ℕ)
    (u : Geo.Circle) (us sorted_poles : List Geo.Circle) :
    Poi.sort_poles dist poi (fuel + 1) (u :: us) sorted_poles =
      Poi.sort_poles dist poi fuel
        ((u :: us).eraseIdx
          (Poi.pick_index ((u :: us).map (Poi.pole_obj_key dist poi sorted_poles))))
        (sorted_poles ++
          [(u :: us).getD
            (Poi.pick_index ((u :: us).map (Poi.pole_obj_key dist poi sorted_poles))) u]) := rfl

theorem sort_poles_perm (dist : Geo.Point → Geo.Point → ℚ) (poi : Geo.Circle) :
    ∀ (fuel : ℕ) (unsorted_poles sorted_poles : List Geo.Circle),
      unsorted_poles.length ≤ fuel →
      (Poi.sort_poles dist poi fuel unsorted_poles sorted_poles).Perm
        (sorted_poles ++ unsorted_poles) := by
  intro fuel
  induction fuel with
  | zero =>
    intro unsorted_poles sorted_poles h
    cases unsorted_poles with
    | nil =>
      rw [List.append_nil]
      exact List.Perm.refl sorted_poles
    | cons u us => simp at h
  | succ f ih =>
    intro unsorted_poles sorted_poles h
    cases unsorted_poles with
    | nil =>
      rw [List.append_nil]
      exact List.Perm.refl sorted_poles
    | cons u us =>
      have hi : Poi.pick_index ((u :: us).map (Poi.pole_obj_key dist poi sorted_poles)) <
          (u :: us).length := by
        have hne : (u :: us).map (Poi.pole_obj_key dist poi sorted_poles) ≠ [] := by simp
        have hth := pick_index_lt ((u :: us).map (Poi.pole_obj_key dist poi sorted_poles)) hne
        rwa [List.length_map] at hth
      have hlen : ((u :: us).eraseIdx
          (Poi.pick_index ((u :: us).map (Poi.pole_obj_key dist poi sorted_poles)))).length ≤
          f := by
        have he : ((u :: us).eraseIdx
            (Poi.pick_index ((u :: us).map (Poi.pole_obj_key dist poi sorted_poles)))).length =
            (u :: us).length - 1 := by
          have hi' : Poi.pick_index (Poi.pole_obj_key dist poi sorted_poles u ::
              List.map (Poi.pole_obj_key dist poi sorted_poles) us) < us.length + 1 := by
            simpa using hi
          rw [List.length_eraseIdx]
          simp [hi']
        simp only [List.length_cons] at h he
        omega
      have hperm := ih
        ((u :: us).eraseIdx
          (Poi.pick_index ((u :: us).map (Poi.pole_obj_key dist poi sorted_poles))))
        (sorted_poles ++
          [(u :: us).getD
            (Poi.pick_index ((u :: us).map (Poi.pole_obj_key dist poi sorted_poles))) u])
        hlen
      rw [sort_poles_cons]
      refine hperm.trans ?_
      rw [List.append_assoc]
      refine List.Perm.append_left sorted_poles ?_
      simpa using getD_cons_eraseIdx_perm u (u :: us) _ hi

/-- Claim C5, amended to the source's strict stopping test:
`generate_additional_surrogate_poles` calls `generate_next_pole` at most
`max_poles` times starting from the list containing only the PoI, stops
generating further poles as soon as the total pole area (PoI included)
strictly exceeds `coverage_goal × polygon.area` — the coverage test being
evaluated only after each newly generated pole has been added — and
returns the generated poles without the PoI, greedily reordered. -/
theorem generate_additional_surrogate_poles_spec (gnp : List Geo.Circle → Geo.Circle)
    (cArea : Geo.Circle → ℚ) (dist : Geo.Point → Geo.Point → ℚ) (shapeArea : ℚ)
    (poi : Geo.Circle) (max_poles : ℕ) (coverage_goal : ℚ) :
    ∃ n, n ≤ max_poles ∧
      Poi.gen_poles_loop gnp cArea (shapeArea * coverage_goal) max_poles [poi] (cArea poi) =
        Poi.pole_stream gnp poi n ∧
      (∀ i, 0 < i → i < n →
        ¬ shapeArea * coverage_goal < Poi.stream_area gnp cArea poi i) ∧
      (n < max_poles → shapeArea * coverage_goal < Poi.stream_area gnp cArea poi n) ∧
      (n = max_poles ∨ shapeArea * coverage_goal < Poi.stream_area gnp cArea poi n) ∧
      (Poi.generate_additional_surrogate_poles gnp cArea dist shapeArea poi max_poles
          coverage_goal).Perm ((Poi.pole_stream gnp poi n).drop 1) ∧
      ((Poi.pole_stream gnp poi n).drop 1).length = n := by
  obtain ⟨m, hm1, hm2, hm3, hm4, hm5⟩ :=
    gen_poles_loop_stream gnp cArea poi (shapeArea * coverage_goal) max_poles 0
  have h0s : Poi.pole_stream gnp poi 0 = [poi] := rfl
  have h0a : Poi.stream_area gnp cArea poi 0 = cArea poi := by
    simp [Poi.stream_area, Poi.pole_stream]
  rw [h0s, h0a] at hm2
  simp only [Nat.zero_add] at hm2 hm3 hm4 hm5
  refine ⟨m, hm1, hm2, ?_, hm4, hm5, ?_, ?_⟩
  · intro i h1 h2
    exact hm3 i (by omega) (by omega)
  · unfold Poi.generate_additional_surrogate_poles
    have hperm := sort_poles_perm dist poi
      ((Poi.gen_poles_loop gnp cArea (shapeArea * coverage_goal) max_poles [poi]
        (cArea poi)).drop 1).length
      ((Poi.gen_poles_loop gnp cArea (shapeArea * coverage_goal) max_poles [poi]
        (cArea poi)).drop 1) [] (le_refl _)
    rw [hm2] at hperm
    simpa [hm2] using hperm
  · rw [List.length_drop, pole_stream_length]
    omega

/-- Concrete pole used by the C5 counterexample and witness. -/
def c5_pole : Geo.Circle := ⟨⟨0, 0⟩, 1⟩

/-- Counterexample to claim C5 as stated: with pole areas modelled by the
radius, PoI area 1 and goal `1 × 2 = 2`, the total pole area reaches the
goal exactly after one generated pole, where the claim's "reaches at
least" rule stops with one additional pole — yet the code's strict test
generates a second pole. -/
theorem generate_additional_poles_stop_counterexample :
    Poi.stream_area (fun _ => c5_pole) (fun c => c.radius) c5_pole 1 = 1 * 2 ∧
      Poi.generate_additional_surrogate_poles (fun _ => c5_pole) (fun c => c.radius)
        (fun _ _ => 0) 1 c5_pole 2 2 = [c5_pole, c5_pole] ∧
      (Poi.gen_poles_loop_geq (fun _ => c5_pole) (fun c => c.radius) (1 * 2) 2 [c5_pole]
        c5_pole.radius).drop 1 = [c5_pole] := by
  refine ⟨?_, ?_, ?_⟩
  · norm_num [Poi.stream_area, Poi.pole_stream, c5_pole]
  · norm_num [Poi.generate_additional_surrogate_poles, Poi.gen_poles_loop, Poi.sort_poles,
      Poi.pick_index, Poi.pole_obj_key, Poi.min_dist_prior, Geo.Circle.distance_from_border,
      c5_pole]
  · norm_num [Poi.gen_poles_loop_geq, c5_pole]

/-- Witness for the amended C5 theorem at a concrete input. -/
theorem generate_additional_surrogate_poles_spec_witness :
    ∃ n, n ≤ 1 ∧
      Poi.gen_poles_loop (fun _ => c5_pole) (fun c => c.radius) ((1 : ℚ) * 2) 1 [c5_pole]
          ((fun (c : Geo.Circle) => c.radius) c5_pole) =
        Poi.pole_stream (fun _ => c5_pole) c5_pole n ∧
      (∀ i, 0 < i → i < n →
        ¬ (1 : ℚ) * 2 < Poi.stream_area (fun _ => c5_pole) (fun c => c.radius) c5_pole i) ∧
      (n < 1 → (1 : ℚ) * 2 < Poi.stream_area (fun _ => c5_pole) (fun c => c.radius) c5_pole n) ∧
      (n = 1 ∨ (1 : ℚ) * 2 < Poi.stream_area (fun _ => c5_pole) (fun c => c.radius) c5_pole n) ∧
      (Poi.generate_additional_surrogate_poles (fun _ => c5_pole) (fun c => c.radius)
          (fun _ _ => 0) 1 c5_pole 1 2).Perm
        ((Poi.pole_stream (fun _ => c5_pole) c5_pole n).drop 1) ∧
      ((Poi.pole_stream (fun _ => c5_pole) c5_pole n).drop 1).length = n :=
  generate_additional_surrogate_poles_spec (fun _ => c5_pole) (fun c => c.radius)
    (fun _ _ => 0) 1 c5_pole 1 2
